import Mathlib

/-!
# Particles: the 2-D affine-transform core

A verification development for `Particle.cpp` / `Engine.cpp`.

Numbers.  The program computes with `float` and `double`.  Here every number is
an element of a commutative ring `K` with exact arithmetic (instantiated at `ℝ`
where trigonometry matters and at `ℤ` / `ℚ` for concrete evaluation), so the
casts `static_cast<float>` are the identity and rounding is outside the model.
`cos` and `sin` of `<cmath>` are passed as functions `K → K`; over `ℝ` they are
`Real.cos` and `Real.sin`.

Scope.  Because rounding is outside the model, the values the model gives to the
cells of the point table, to the center after a move, to `m_ttl` and to `m_vy`
are the exact ones, and the running program only approximates them.  The
theorems below are therefore limited to what does not depend on rounding: which
operations are performed and on which shapes, whether they fail, which fields
are written, quantities computed in integers, and sign or order facts that
rounding preserves.

Failure.  `Matrix` operators throw on a dimension mismatch and element access
throws out of range; both are modelled as `Except MatrixError`, and the
`Particle` member functions thread that result.

Constants.  `SCALE` and `G` are declared in `Particle.h`, which is not among the
sources; they are parameters of `Particle.update`.  `TTL`, `M_PI` and `RAND_MAX`
are parameters of `Particle.construct`.

Randomness.  The calls of `rand()` made by one construction are a function
`rand : Nat → Nat`, the `k`-th call returning `rand k`.
-/

namespace Particles

/-! ## Matrix -/

/-- The two failure conditions of the matrix layer. -/
inductive MatrixError where
  | dimensionMismatch
  | outOfBounds
  deriving DecidableEq, Repr

/-- Modelled from the spec: the class `Matrix` of `Matrices.h` (not among the
sources): a rectangular table of numbers with a row count, a column count and
one value per cell `(row, col)`.  The spec's cells are floating-point numbers;
here they are exact numbers, so sums and products of cells are not rounded. -/
structure Matrix (K : Type) where
  rows : Nat
  cols : Nat
  a : Nat → Nat → K

/-- Modelled from the spec: the constructor `Matrix(rows, cols)` of `Matrices.h`,
the table of the given shape (cells start at zero). -/
def Matrix.new {K : Type} [CommRing K] (rows cols : Nat) : Matrix K :=
  { rows := rows, cols := cols, a := fun _ _ => 0 }

/-- Modelled from the spec: dimension query `getRows` of `Matrices.h`. -/
def Matrix.getRows {K : Type} (m : Matrix K) : Nat := m.rows

/-- Modelled from the spec: dimension query `getCols` of `Matrices.h`. -/
def Matrix.getCols {K : Type} (m : Matrix K) : Nat := m.cols

/-- The table has exactly `r` rows and `c` columns. -/
def Matrix.hasShape {K : Type} (m : Matrix K) (r c : Nat) : Prop :=
  m.getRows = r ∧ m.getCols = c

instance {K : Type} (m : Matrix K) (r c : Nat) : Decidable (m.hasShape r c) := by
  unfold Matrix.hasShape
  infer_instance

/-- Modelled from the spec: element read `operator()(row, col)` of `Matrices.h`,
defined only for `row < R` and `col < C`, an out-of-bounds failure otherwise. -/
def Matrix.get {K : Type} (m : Matrix K) (row col : Nat) : Except MatrixError K :=
  if row < m.rows ∧ col < m.cols then .ok (m.a row col) else .error .outOfBounds

/-- Modelled from the spec: element write `operator()(row, col) = value` of
`Matrices.h`, defined only within bounds. -/
def Matrix.set {K : Type} (m : Matrix K) (row col : Nat) (value : K) :
    Except MatrixError (Matrix K) :=
  if row < m.rows ∧ col < m.cols then
    .ok { m with a := fun i j => if i = row ∧ j = col then value else m.a i j }
  else .error .outOfBounds

/-- Modelled from the spec: `operator+` of `Matrices.h`: a dimension-mismatch
failure unless the dimensions are identical, the element-wise sum otherwise. -/
def Matrix.add {K : Type} [CommRing K] (x y : Matrix K) : Except MatrixError (Matrix K) :=
  if x.rows ≠ y.rows ∨ x.cols ≠ y.cols then .error .dimensionMismatch
  else .ok { rows := x.rows, cols := x.cols, a := fun i j => x.a i j + y.a i j }

/-- The accumulation loop of a dot product: `f 0 + f 1 + ... + f (n - 1)`,
starting from zero and adding the terms in index order. -/
def dotSum {K : Type} [CommRing K] (f : Nat → K) : Nat → K
  | 0 => 0
  | n + 1 => dotSum f n + f n

/-- Modelled from the spec: `operator*` of `Matrices.h`: a dimension-mismatch
failure unless `left.cols = right.rows`; otherwise the `left.rows × right.cols`
product by the standard dot-product rule. -/
def Matrix.mul {K : Type} [CommRing K] (x y : Matrix K) : Except MatrixError (Matrix K) :=
  if x.cols ≠ y.rows then .error .dimensionMismatch
  else .ok { rows := x.rows, cols := y.cols,
             a := fun i k => dotSum (fun j => x.a i j * y.a j k) x.cols }

/-- Modelled from the spec: `RotationMatrix(theta)` of `Matrices.h`, the 2×2
matrix `[[cos θ, −sin θ], [sin θ, cos θ]]`. -/
def RotationMatrix {K : Type} [CommRing K] (cos sin : K → K) (theta : K) : Matrix K :=
  { rows := 2, cols := 2,
    a := fun i j =>
      match i, j with
      | 0, 0 => cos theta
      | 0, 1 => -sin theta
      | 1, 0 => sin theta
      | 1, 1 => cos theta
      | _, _ => 0 }

/-- Modelled from the spec: `ScalingMatrix(c)` of `Matrices.h`, the 2×2 diagonal
matrix `[[c, 0], [0, c]]`. -/
def ScalingMatrix {K : Type} [CommRing K] (c : K) : Matrix K :=
  { rows := 2, cols := 2,
    a := fun i j =>
      match i, j with
      | 0, 0 => c
      | 1, 1 => c
      | _, _ => 0 }

/-- Modelled from the spec: `TranslationMatrix(xShift, yShift, nCols)` of
`Matrices.h`, the 2×n matrix whose every column is `(xShift, yShift)`. -/
def TranslationMatrix {K : Type} [CommRing K] (xShift yShift : K) (nCols : Nat) : Matrix K :=
  { rows := 2, cols := nCols,
    a := fun i _ =>
      match i with
      | 0 => xShift
      | 1 => yShift
      | _ => 0 }

/-! ## Particle -/

/-- A pair of coordinates (`sf::Vector2f`). -/
structure Vector2f (K : Type) where
  x : K
  y : K

/-- An RGB colour (`sf::Color`), one byte per channel. -/
structure Color where
  r : Nat
  g : Nat
  b : Nat
  deriving DecidableEq, Repr

/-- The logical viewing window (`sf::View`): a rectangle given by its center
and its size. -/
structure View (K : Type) where
  center : Vector2f K
  size : Vector2f K

/-- The data members of `Particle`. -/
structure Particle (K : Type) where
  m_ttl : K
  m_numPoints : Int
  m_centerCoordinate : Vector2f K
  m_radiansPerSec : K
  m_vx : K
  m_vy : K
  m_cartesianPlane : View K
  m_color1 : Color
  m_color2 : Color
  m_A : Matrix K

/-- `Particle::translate` (Particle.cpp 90-96): add the translation matrix of
the table's own column count to the table, then shift the center.  The source
adds the `double` shift to the `double` table and `static_cast<float>` of the
shift to the `float` center; here both are the same exact number. -/
def Particle.translate {K : Type} [CommRing K] (p : Particle K) (xShift yShift : K) :
    Except MatrixError (Particle K) := do
  let T := TranslationMatrix xShift yShift p.m_A.getCols
  let A ← Matrix.add T p.m_A
  pure { p with
    m_A := A
    m_centerCoordinate :=
      { x := p.m_centerCoordinate.x + xShift, y := p.m_centerCoordinate.y + yShift } }

/-- `Particle::rotate` (Particle.cpp 98-110): move the center to the origin,
multiply by the rotation matrix, move back by the saved center. -/
def Particle.rotate {K : Type} [CommRing K] (cos sin : K → K) (p : Particle K) (theta : K) :
    Except MatrixError (Particle K) := do
  let temp := p.m_centerCoordinate
  let p1 ← p.translate (-temp.x) (-temp.y)
  let R := RotationMatrix cos sin theta
  let A ← Matrix.mul R p1.m_A
  let p2 := { p1 with m_A := A }
  p2.translate temp.x temp.y

/-- `Particle::scale` (Particle.cpp 112-124): move the center to the origin,
multiply by the scaling matrix, move back by the saved center. -/
def Particle.scale {K : Type} [CommRing K] (p : Particle K) (c : K) :
    Except MatrixError (Particle K) := do
  let temp := p.m_centerCoordinate
  let p1 ← p.translate (-temp.x) (-temp.y)
  let S := ScalingMatrix c
  let A ← Matrix.mul S p1.m_A
  let p2 := { p1 with m_A := A }
  p2.translate temp.x temp.y

/-- `Particle::update` (Particle.cpp 77-88), with the constants `SCALE` and `G`
of `Particle.h` as parameters.  `m_ttl`, `m_vy`, `dx` and `dy` are `float` in
the source and exact numbers here. -/
def Particle.update {K : Type} [CommRing K] (cos sin : K → K) (SCALE G : K)
    (p : Particle K) (dt : K) : Except MatrixError (Particle K) := do
  let p0 := { p with m_ttl := p.m_ttl - dt }
  let p1 ← p0.rotate cos sin (dt * p0.m_radiansPerSec)
  let p2 ← p1.scale SCALE
  let dx := p2.m_vx * dt
  let p3 := { p2 with m_vy := p2.m_vy - G * dt }
  let dy := p3.m_vy * dt
  p3.translate dx dy

/-! ## The click position and the logical frame -/

/-- A pixel position (`sf::Vector2i`). -/
structure Vector2i where
  x : Int
  y : Int
  deriving DecidableEq, Repr

/-- A surface size in pixels (`sf::Vector2u`), two 32-bit unsigned values. -/
structure Vector2u where
  x : Nat
  y : Nat
  deriving DecidableEq, Repr

/-- Modelled from the spec: the render surface's pixel-to-logical mapping
`RenderTarget::mapPixelToCoords(point, view)`, library code that is not among the
sources.  Pixel space has its origin at the top-left corner of a surface of
`targetSize` pixels with y growing downward; the view is the logical rectangle
(center and size, the sign of the size giving the axis direction) shown on the
whole surface.  The pixel is first normalised to `[-1, 1] × [-1, 1]` (y upward),
then sent through the inverse of the view's projection. -/
def mapPixelToCoords {K : Type} [Field K] (targetSize : Vector2u) (point : Vector2i)
    (view : View K) : Vector2f K :=
  let nx : K := -1 + 2 * (point.x : K) / (targetSize.x : K)
  let ny : K := 1 - 2 * (point.y : K) / (targetSize.y : K)
  { x := view.center.x + nx * view.size.x / 2,
    y := view.center.y - ny * view.size.y / 2 }

/-- `Particle::Particle` (Particle.cpp 16-20): the Cartesian view, centered at
the origin, as wide as the surface and with the y axis flipped. -/
def Particle.cartesianPlane {K : Type} [Field K] (targetSize : Vector2u) : View K :=
  { center := { x := 0, y := 0 },
    size := { x := (targetSize.x : K), y := -(targetSize.y : K) } }

/-- `Particle::Particle` (Particle.cpp 23): the center coordinate is the click
mapped through the Cartesian view. -/
def Particle.centerOfClick {K : Type} [Field K] (targetSize : Vector2u)
    (mouseClickPosition : Vector2i) : Vector2f K :=
  mapPixelToCoords targetSize mouseClickPosition (Particle.cartesianPlane targetSize)

/-- The cast `(int) u` of a 32-bit unsigned value `u`: the same 32 bits read as
a two's complement integer, so values from `2 ^ 31` on become negative. -/
def unsignedToInt (u : Nat) : Int :=
  if u % 2 ^ 32 < 2 ^ 31 then ((u % 2 ^ 32 : Nat) : Int)
  else ((u % 2 ^ 32 : Nat) : Int) - 2 ^ 32

/-- `Engine::run` (Engine.cpp 13): the click handed to the unit-test particle,
`{ (int) size.x / 2, (int) size.y / 2 }`: the cast to `int` comes first, then
the division of `int`, which truncates toward zero. -/
def Engine.centerClick (targetSize : Vector2u) : Vector2i :=
  { x := Int.tdiv (unsignedToInt targetSize.x) 2,
    y := Int.tdiv (unsignedToInt targetSize.y) 2 }

/-! ## Construction -/

/-- The vertex loop of `Particle::Particle` (Particle.cpp 40-48).  The first
argument counts the iterations still to run (`m_numPoints - j`); then come the
loop variable `j`, the running angle `theta`, the number `k` of random values
drawn so far, and the point table.  `rand k` is the value of the `k`-th call of
`rand()` since the construction began.  `theta`, `r`, `dx`, `dy` are `float` in
the source and exact numbers here. -/
def Particle.generateVertices {K : Type} [Field K] (cos sin : K → K) (rand : Nat → Nat)
    (center : Vector2f K) (dTheta : K) :
    Nat → Nat → K → Nat → Matrix K → Except MatrixError (Matrix K)
  | 0, _, _, _, A => .ok A
  | n + 1, j, theta, k, A => do
    let r : K := 20 + ((rand k % 61 : Nat) : K)
    let dx := r * cos theta
    let dy := r * sin theta
    let A1 ← A.set 0 j (center.x + dx)
    let A2 ← A1.set 1 j (center.y + dy)
    Particle.generateVertices cos sin rand center dTheta n (j + 1) (theta + dTheta) (k + 1) A2

/-- `Particle::Particle` (Particle.cpp 6-49).  `M_PI`, `RAND_MAX` and `TTL` are
constants of headers that are not among the sources and are parameters;
`rand k` is the value of the `k`-th call of `rand()`; `numPoints` (an `int` in
the source) is taken non-negative.  The quotients `rand / RAND_MAX` and the step
`dTheta` are `float` in the source and exact numbers here.  The three color
channels take the draws 4, 5, 6 in the order of the arguments; C++ leaves the
order of evaluation of the three arguments open. -/
def Particle.construct {K : Type} [Field K] (cos sin : K → K) (M_PI : K) (RAND_MAX : Nat)
    (TTL : K) (rand : Nat → Nat) (targetSize : Vector2u) (numPoints : Nat)
    (mouseClickPosition : Vector2i) : Except MatrixError (Particle K) := do
  let m_radiansPerSec : K := (rand 0 : K) / (RAND_MAX : K) * M_PI
  let m_centerCoordinate : Vector2f K := Particle.centerOfClick targetSize mouseClickPosition
  let vx : K := ((100 + rand 1 % 401 : Nat) : K)
  let m_vx : K := if rand 2 % 2 ≠ 0 then -vx else vx
  let m_vy : K := ((100 + rand 3 % 401 : Nat) : K)
  let m_color2 : Color := { r := rand 4 % 256, g := rand 5 % 256, b := rand 6 % 256 }
  let theta : K := (rand 7 : K) / (RAND_MAX : K) * (M_PI / 2)
  let dTheta : K := 2 * M_PI / (((numPoints : Int) - 1 : Int) : K)
  let A ← Particle.generateVertices cos sin rand m_centerCoordinate dTheta numPoints 0 theta 8
    (Matrix.new 2 numPoints)
  pure { m_ttl := TTL
         m_numPoints := (numPoints : Int)
         m_centerCoordinate := m_centerCoordinate
         m_radiansPerSec := m_radiansPerSec
         m_vx := m_vx
         m_vy := m_vy
         m_cartesianPlane := Particle.cartesianPlane targetSize
         m_color1 := { r := 255, g := 255, b := 255 }
         m_color2 := m_color2
         m_A := A }

/-- `Engine::run` (Engine.cpp 13): the particle handed to `unitTests`, built on
the window with four vertices and the click `Engine.centerClick`. -/
def Engine.unitTestParticle {K : Type} [Field K] (cos sin : K → K) (M_PI : K)
    (RAND_MAX : Nat) (TTL : K) (rand : Nat → Nat) (targetSize : Vector2u) :
    Except MatrixError (Particle K) :=
  Particle.construct cos sin M_PI RAND_MAX TTL rand targetSize 4 (Engine.centerClick targetSize)

/-- The origin check of `Particle::unitTests` (Particle.cpp 188): the branch that
prints `Failed.  Expected (0,0)` is taken when
`m_centerCoordinate.x != 0 || m_centerCoordinate.y != 0`. -/
def Particle.originTestFails {K : Type} [Zero K] (p : Particle K) : Prop :=
  p.m_centerCoordinate.x ≠ 0 ∨ p.m_centerCoordinate.y ≠ 0

instance {K : Type} [Zero K] [DecidableEq K] (p : Particle K) :
    Decidable p.originTestFails := by
  unfold Particle.originTestFails
  infer_instance

/-- A stream of random values for the examples: the `k`-th draw is `1000 + 7 k`. -/
def sampleRand (k : Nat) : Nat := 1000 + 7 * k

/-! ## Sample data -/

/-- A triangle with center `(3, 4)`, usable over any ring of numbers. -/
def sampleParticle (K : Type) [CommRing K] : Particle K :=
  { m_ttl := 5
    m_numPoints := 3
    m_centerCoordinate := { x := 3, y := 4 }
    m_radiansPerSec := 1
    m_vx := 100
    m_vy := 200
    m_cartesianPlane := { center := { x := 0, y := 0 }, size := { x := 800, y := -600 } }
    m_color1 := { r := 255, g := 255, b := 255 }
    m_color2 := { r := 10, g := 20, b := 30 }
    m_A := { rows := 2, cols := 3,
             a := fun i j =>
               match i, j with
               | 0, 0 => 23 | 0, 1 => -17 | 0, 2 => 3
               | 1, 0 => 4 | 1, 1 => 34 | 1, 2 => -26
               | _, _ => 0 } }

/-! ## Basic facts about the matrix layer -/

theorem Matrix.get_ok {K : Type} (m : Matrix K) {i j : Nat} (hi : i < m.rows)
    (hj : j < m.cols) : m.get i j = .ok (m.a i j) := by
  simp [Matrix.get, hi, hj]

section MatrixFacts
variable {K : Type} [CommRing K]

theorem Matrix.add_ok (x y : Matrix K) (hr : x.rows = y.rows) (hc : x.cols = y.cols) :
    Matrix.add x y =
      .ok { rows := x.rows, cols := x.cols, a := fun i j => x.a i j + y.a i j } := by
  simp [Matrix.add, hr, hc]

theorem Matrix.mul_ok (x y : Matrix K) (h : x.cols = y.rows) :
    Matrix.mul x y =
      .ok { rows := x.rows, cols := y.cols,
            a := fun i k => dotSum (fun j => x.a i j * y.a j k) x.cols } := by
  simp [Matrix.mul, h]

theorem dotSum_two (f : Nat → K) : dotSum f 2 = f 0 + f 1 := by
  simp [dotSum]

/-- The accumulation loop computes the finite sum of its terms. -/
theorem dotSum_eq_sum (f : Nat → K) (n : Nat) : dotSum f n = ∑ k in Finset.range n, f k := by
  induction n with
  | zero => simp [dotSum]
  | succ n ih => rw [dotSum, ih, Finset.sum_range_succ]

end MatrixFacts

/-! ## The transforms, step by step -/

section ParticleFacts
variable {K : Type} [CommRing K]

/-- Closed form of `translate` on a two-row table. -/
theorem Particle.translate_eq (p : Particle K) (dx dy : K) (h : p.m_A.rows = 2) :
    p.translate dx dy =
      .ok { p with
        m_A := { rows := 2, cols := p.m_A.cols,
                 a := fun i j => (TranslationMatrix dx dy p.m_A.cols).a i j + p.m_A.a i j }
        m_centerCoordinate :=
          { x := p.m_centerCoordinate.x + dx, y := p.m_centerCoordinate.y + dy } } := by
  have hadd := Matrix.add_ok (TranslationMatrix dx dy p.m_A.cols) p.m_A
    (by simp [TranslationMatrix, h]) (by simp [TranslationMatrix])
  simp only [Particle.translate, Matrix.getCols, hadd]
  rfl

/-- Closed form of `rotate` on a two-row table. -/
theorem Particle.rotate_eq (cos sin : K → K) (p : Particle K) (theta : K)
    (h : p.m_A.rows = 2) :
    p.rotate cos sin theta =
      .ok { p with
        m_A := { rows := 2, cols := p.m_A.cols,
                 a := fun i j =>
                   (TranslationMatrix p.m_centerCoordinate.x p.m_centerCoordinate.y
                       p.m_A.cols).a i j +
                     dotSum (fun k => (RotationMatrix cos sin theta).a i k *
                       ((TranslationMatrix (-p.m_centerCoordinate.x) (-p.m_centerCoordinate.y)
                           p.m_A.cols).a k j + p.m_A.a k j)) 2 }
        m_centerCoordinate :=
          { x := p.m_centerCoordinate.x + -p.m_centerCoordinate.x + p.m_centerCoordinate.x,
            y := p.m_centerCoordinate.y + -p.m_centerCoordinate.y + p.m_centerCoordinate.y } } := by
  simp only [Particle.rotate, Particle.translate_eq p _ _ h, bind, Except.bind]
  rw [Matrix.mul_ok _ _ (by simp [RotationMatrix])]
  simp only []
  rw [Particle.translate_eq _ _ _ (by simp [RotationMatrix])]
  rfl

/-- Closed form of `scale` on a two-row table. -/
theorem Particle.scale_eq (p : Particle K) (c : K) (h : p.m_A.rows = 2) :
    p.scale c =
      .ok { p with
        m_A := { rows := 2, cols := p.m_A.cols,
                 a := fun i j =>
                   (TranslationMatrix p.m_centerCoordinate.x p.m_centerCoordinate.y
                       p.m_A.cols).a i j +
                     dotSum (fun k => (ScalingMatrix c).a i k *
                       ((TranslationMatrix (-p.m_centerCoordinate.x) (-p.m_centerCoordinate.y)
                           p.m_A.cols).a k j + p.m_A.a k j)) 2 }
        m_centerCoordinate :=
          { x := p.m_centerCoordinate.x + -p.m_centerCoordinate.x + p.m_centerCoordinate.x,
            y := p.m_centerCoordinate.y + -p.m_centerCoordinate.y + p.m_centerCoordinate.y } } := by
  simp only [Particle.scale, Particle.translate_eq p _ _ h, bind, Except.bind]
  rw [Matrix.mul_ok _ _ (by simp [ScalingMatrix])]
  simp only []
  rw [Particle.translate_eq _ _ _ (by simp [ScalingMatrix])]
  rfl

/-- What `rotate` does to a two-row table, field by field. -/
theorem Particle.rotate_spec (cos sin : K → K) (p : Particle K) (theta : K)
    (h : p.m_A.rows = 2) :
    ∃ q, p.rotate cos sin theta = .ok q ∧
      q.m_A.rows = 2 ∧ q.m_A.cols = p.m_A.cols ∧
      (∀ j, q.m_A.a 0 j = p.m_centerCoordinate.x +
        (cos theta * (p.m_A.a 0 j - p.m_centerCoordinate.x) -
          sin theta * (p.m_A.a 1 j - p.m_centerCoordinate.y))) ∧
      (∀ j, q.m_A.a 1 j = p.m_centerCoordinate.y +
        (sin theta * (p.m_A.a 0 j - p.m_centerCoordinate.x) +
          cos theta * (p.m_A.a 1 j - p.m_centerCoordinate.y))) ∧
      q.m_centerCoordinate = p.m_centerCoordinate ∧
      q.m_ttl = p.m_ttl ∧ q.m_numPoints = p.m_numPoints ∧
      q.m_radiansPerSec = p.m_radiansPerSec ∧ q.m_vx = p.m_vx ∧ q.m_vy = p.m_vy ∧
      q.m_cartesianPlane = p.m_cartesianPlane ∧
      q.m_color1 = p.m_color1 ∧ q.m_color2 = p.m_color2 := by
  refine ⟨_, Particle.rotate_eq cos sin p theta h, rfl, rfl, ?_, ?_, ?_,
    rfl, rfl, rfl, rfl, rfl, rfl, rfl, rfl⟩
  · intro j
    simp only [dotSum_two, TranslationMatrix, RotationMatrix]
    ring
  · intro j
    simp only [dotSum_two, TranslationMatrix, RotationMatrix]
    ring
  · cases hc : p.m_centerCoordinate
    simp

/-- What `scale` does to a two-row table, field by field. -/
theorem Particle.scale_spec (p : Particle K) (c : K) (h : p.m_A.rows = 2) :
    ∃ q, p.scale c = .ok q ∧
      q.m_A.rows = 2 ∧ q.m_A.cols = p.m_A.cols ∧
      (∀ j, q.m_A.a 0 j = p.m_centerCoordinate.x +
        c * (p.m_A.a 0 j - p.m_centerCoordinate.x)) ∧
      (∀ j, q.m_A.a 1 j = p.m_centerCoordinate.y +
        c * (p.m_A.a 1 j - p.m_centerCoordinate.y)) ∧
      q.m_centerCoordinate = p.m_centerCoordinate ∧
      q.m_ttl = p.m_ttl ∧ q.m_numPoints = p.m_numPoints ∧
      q.m_radiansPerSec = p.m_radiansPerSec ∧ q.m_vx = p.m_vx ∧ q.m_vy = p.m_vy ∧
      q.m_cartesianPlane = p.m_cartesianPlane ∧
      q.m_color1 = p.m_color1 ∧ q.m_color2 = p.m_color2 := by
  refine ⟨_, Particle.scale_eq p c h, rfl, rfl, ?_, ?_, ?_,
    rfl, rfl, rfl, rfl, rfl, rfl, rfl, rfl⟩
  · intro j
    simp only [dotSum_two, TranslationMatrix, ScalingMatrix]
    ring
  · intro j
    simp only [dotSum_two, TranslationMatrix, ScalingMatrix]
    ring
  · cases hc : p.m_centerCoordinate
    simp

/-- What `update` does to a two-row table, field by field. -/
theorem Particle.update_spec (cos sin : K → K) (SCALE G : K) (p : Particle K) (dt : K)
    (h : p.m_A.rows = 2) :
    ∃ q, p.update cos sin SCALE G dt = .ok q ∧
      q.m_A.rows = 2 ∧ q.m_A.cols = p.m_A.cols ∧
      (∀ j, q.m_A.a 0 j = p.m_centerCoordinate.x +
        SCALE * (cos (dt * p.m_radiansPerSec) * (p.m_A.a 0 j - p.m_centerCoordinate.x) -
          sin (dt * p.m_radiansPerSec) * (p.m_A.a 1 j - p.m_centerCoordinate.y)) +
        p.m_vx * dt) ∧
      (∀ j, q.m_A.a 1 j = p.m_centerCoordinate.y +
        SCALE * (sin (dt * p.m_radiansPerSec) * (p.m_A.a 0 j - p.m_centerCoordinate.x) +
          cos (dt * p.m_radiansPerSec) * (p.m_A.a 1 j - p.m_centerCoordinate.y)) +
        (p.m_vy - G * dt) * dt) ∧
      q.m_centerCoordinate.x = p.m_centerCoordinate.x + p.m_vx * dt ∧
      q.m_centerCoordinate.y = p.m_centerCoordinate.y + (p.m_vy - G * dt) * dt ∧
      q.m_ttl = p.m_ttl - dt ∧ q.m_vy = p.m_vy - G * dt ∧
      q.m_numPoints = p.m_numPoints ∧
      q.m_radiansPerSec = p.m_radiansPerSec ∧ q.m_vx = p.m_vx ∧
      q.m_cartesianPlane = p.m_cartesianPlane ∧
      q.m_color1 = p.m_color1 ∧ q.m_color2 = p.m_color2 := by
  obtain ⟨q1, hq1, hr1, hc1, hx1, hy1, hcen1, httl1, hn1, hw1, hvx1, hvy1, hpl1, hco1, hcl1⟩ :=
    Particle.rotate_spec cos sin { p with m_ttl := p.m_ttl - dt } (dt * p.m_radiansPerSec) h
  obtain ⟨q2, hq2, hr2, hc2, hx2, hy2, hcen2, httl2, hn2, hw2, hvx2, hvy2, hpl2, hco2, hcl2⟩ :=
    Particle.scale_spec q1 SCALE hr1
  dsimp only at hq1 hc1 hx1 hy1 hcen1 httl1 hn1 hw1 hvx1 hvy1 hpl1 hco1 hcl1
  have ht := Particle.translate_eq { q2 with m_vy := q2.m_vy - G * dt } (q2.m_vx * dt)
    ((q2.m_vy - G * dt) * dt) hr2
  have hupd : p.update cos sin SCALE G dt =
      Particle.translate { q2 with m_vy := q2.m_vy - G * dt } (q2.m_vx * dt)
        ((q2.m_vy - G * dt) * dt) := by
    simp only [Particle.update, bind, Except.bind, hq1, hq2]
  rw [ht] at hupd
  refine ⟨_, hupd, ?_⟩
  simp only [TranslationMatrix, hx2, hy2, hcen2, hx1, hy1, hcen1, hvx2, hvx1, hvy2, hvy1,
    hc2, hc1, httl2, httl1, hn2, hn1, hw2, hw1, hpl2, hpl1, hco2, hco1, hcl2, hcl1]
  refine ⟨trivial, trivial, ?_, ?_, trivial, trivial, trivial, trivial, trivial, trivial,
    trivial, trivial, trivial, trivial⟩
  · intro j
    ring
  · intro j
    ring

/-- The one addition `translate` performs, with the shapes of its operands. -/
theorem Particle.translate_steps (p : Particle K) (dx dy : K) (N : Nat)
    (hr : p.m_A.rows = 2) (hc : p.m_A.cols = N) :
    ∃ q, Matrix.add (TranslationMatrix dx dy N) p.m_A = .ok q.m_A ∧
      q.m_A.hasShape 2 N ∧ p.translate dx dy = .ok q := by
  subst hc
  have ht := Particle.translate_eq p dx dy hr
  refine ⟨_, ?_, ?_, ht⟩
  · exact Matrix.add_ok _ _ (by simp [TranslationMatrix, hr]) (by simp [TranslationMatrix])
  · exact ⟨rfl, rfl⟩

/-- A 2 × 2 matrix times a two-row table is defined and keeps the table's shape. -/
theorem Matrix.mul_two_by_two (M A : Matrix K) (N : Nat) (hM : M.hasShape 2 2)
    (hA : A.hasShape 2 N) :
    ∃ B, Matrix.mul M A = .ok B ∧ B.hasShape 2 N := by
  obtain ⟨hMr, hMc⟩ := hM
  obtain ⟨hAr, hAc⟩ := hA
  simp only [Matrix.getRows, Matrix.getCols] at hMr hMc hAr hAc
  exact ⟨_, Matrix.mul_ok M A (by rw [hMc, hAr]), hMr, hAc⟩

/-- The two additions and the multiplication `rotate` performs. -/
theorem Particle.rotate_steps (cos sin : K → K) (p : Particle K) (theta : K) (N : Nat)
    (hr : p.m_A.rows = 2) (hc : p.m_A.cols = N) :
    ∃ A1 A2 q,
      Matrix.add (TranslationMatrix (-p.m_centerCoordinate.x) (-p.m_centerCoordinate.y) N)
        p.m_A = .ok A1 ∧ A1.hasShape 2 N ∧
      Matrix.mul (RotationMatrix cos sin theta) A1 = .ok A2 ∧ A2.hasShape 2 N ∧
      Matrix.add (TranslationMatrix p.m_centerCoordinate.x p.m_centerCoordinate.y N) A2 =
        .ok q.m_A ∧ q.m_A.hasShape 2 N ∧
      p.rotate cos sin theta = .ok q := by
  obtain ⟨r, hA1, hs1, ht1⟩ :=
    Particle.translate_steps p (-p.m_centerCoordinate.x) (-p.m_centerCoordinate.y) N hr hc
  obtain ⟨A2, hm, hs2⟩ :=
    Matrix.mul_two_by_two (RotationMatrix cos sin theta) r.m_A N ⟨rfl, rfl⟩ hs1
  obtain ⟨q, hA3, hs3, ht3⟩ :=
    Particle.translate_steps { r with m_A := A2 } p.m_centerCoordinate.x
      p.m_centerCoordinate.y N hs2.1 hs2.2
  refine ⟨r.m_A, A2, q, hA1, hs1, hm, hs2, hA3, hs3, ?_⟩
  simp only [Particle.rotate, bind, Except.bind, ht1, hm]
  exact ht3

/-- The two additions and the multiplication `scale` performs. -/
theorem Particle.scale_steps (p : Particle K) (c : K) (N : Nat)
    (hr : p.m_A.rows = 2) (hc : p.m_A.cols = N) :
    ∃ A1 A2 q,
      Matrix.add (TranslationMatrix (-p.m_centerCoordinate.x) (-p.m_centerCoordinate.y) N)
        p.m_A = .ok A1 ∧ A1.hasShape 2 N ∧
      Matrix.mul (ScalingMatrix c) A1 = .ok A2 ∧ A2.hasShape 2 N ∧
      Matrix.add (TranslationMatrix p.m_centerCoordinate.x p.m_centerCoordinate.y N) A2 =
        .ok q.m_A ∧ q.m_A.hasShape 2 N ∧
      p.scale c = .ok q := by
  obtain ⟨r, hA1, hs1, ht1⟩ :=
    Particle.translate_steps p (-p.m_centerCoordinate.x) (-p.m_centerCoordinate.y) N hr hc
  obtain ⟨A2, hm, hs2⟩ := Matrix.mul_two_by_two (ScalingMatrix c) r.m_A N ⟨rfl, rfl⟩ hs1
  obtain ⟨q, hA3, hs3, ht3⟩ :=
    Particle.translate_steps { r with m_A := A2 } p.m_centerCoordinate.x
      p.m_centerCoordinate.y N hs2.1 hs2.2
  refine ⟨r.m_A, A2, q, hA1, hs1, hm, hs2, hA3, hs3, ?_⟩
  simp only [Particle.scale, bind, Except.bind, ht1, hm]
  exact ht3

end ParticleFacts

/-! ## The constructor, field by field -/

/-- A write inside the bounds of the table succeeds and changes one cell. -/
theorem Matrix.set_ok {K : Type} (m : Matrix K) (i j : Nat) (v : K) (hi : i < m.rows)
    (hj : j < m.cols) :
    m.set i j v =
      .ok { m with a := fun i' j' => if i' = i ∧ j' = j then v else m.a i' j' } := by
  simp [Matrix.set, hi, hj]

section ConstructFacts
variable {K : Type} [Field K]

/-- What the vertex loop writes: `n` iterations starting at column `j0` fill the
columns `j0 .. j0 + n - 1` and leave the columns before `j0` as they were. -/
theorem Particle.generateVertices_spec (cos sin : K → K) (rand : Nat → Nat)
    (center : Vector2f K) (dTheta : K) (n : Nat) :
    ∀ (j0 : Nat) (theta : K) (k0 : Nat) (A : Matrix K), A.rows = 2 → j0 + n ≤ A.cols →
      ∃ B, Particle.generateVertices cos sin rand center dTheta n j0 theta k0 A = .ok B ∧
        B.rows = 2 ∧ B.cols = A.cols ∧
        (∀ i j, j < j0 → B.a i j = A.a i j) ∧
        (∀ d, d < n →
          B.a 0 (j0 + d) = center.x +
            (20 + ((rand (k0 + d) % 61 : Nat) : K)) * cos (theta + (d : K) * dTheta) ∧
          B.a 1 (j0 + d) = center.y +
            (20 + ((rand (k0 + d) % 61 : Nat) : K)) * sin (theta + (d : K) * dTheta)) := by
  induction n with
  | zero =>
    intro j0 theta k0 A hr _
    exact ⟨A, rfl, hr, rfl, fun _ _ _ => rfl, fun d hd => absurd hd (Nat.not_lt_zero d)⟩
  | succ n ih =>
    intro j0 theta k0 A hr hc
    have h1 := Matrix.set_ok A 0 j0
      (center.x + (20 + ((rand k0 % 61 : Nat) : K)) * cos theta) (by omega) (by omega)
    have h2 := Matrix.set_ok
      (Matrix.mk A.rows A.cols fun i' j' =>
        if i' = 0 ∧ j' = j0 then center.x + (20 + ((rand k0 % 61 : Nat) : K)) * cos theta
        else A.a i' j') 1 j0
      (center.y + (20 + ((rand k0 % 61 : Nat) : K)) * sin theta)
      (show 1 < A.rows by omega) (show j0 < A.cols by omega)
    obtain ⟨B, hB, hBr, hBc, hpre, hcols⟩ := ih (j0 + 1) (theta + dTheta) (k0 + 1)
      (Matrix.mk A.rows A.cols fun i' j' =>
        if i' = 1 ∧ j' = j0 then center.y + (20 + ((rand k0 % 61 : Nat) : K)) * sin theta
        else if i' = 0 ∧ j' = j0 then
          center.x + (20 + ((rand k0 % 61 : Nat) : K)) * cos theta
        else A.a i' j') hr (show j0 + 1 + n ≤ A.cols by omega)
    refine ⟨B, ?_, hBr, hBc, ?_, ?_⟩
    · simp only [Particle.generateVertices, bind, Except.bind, h1, h2]
      exact hB
    · intro i j hj
      rw [hpre i j (by omega)]
      have hne : j ≠ j0 := by omega
      simp [hne]
    · intro d hd
      cases d with
      | zero =>
        rw [Nat.add_zero, hpre 0 j0 (by omega), hpre 1 j0 (by omega)]
        simp
      | succ d =>
        obtain ⟨hx, hy⟩ := hcols d (by omega)
        have e1 : j0 + (d + 1) = j0 + 1 + d := by omega
        have e2 : k0 + (d + 1) = k0 + 1 + d := by omega
        have e3 : theta + ((d + 1 : Nat) : K) * dTheta = theta + dTheta + (d : K) * dTheta := by
          push_cast
          ring
        rw [e1, e2, e3]
        exact ⟨hx, hy⟩

/-- Every field of a freshly constructed particle. -/
theorem Particle.construct_spec (cos sin : K → K) (M_PI : K) (RAND_MAX : Nat) (TTL : K)
    (rand : Nat → Nat) (targetSize : Vector2u) (N : Nat) (click : Vector2i) :
    ∃ p, Particle.construct cos sin M_PI RAND_MAX TTL rand targetSize N click = .ok p ∧
      p.m_ttl = TTL ∧ p.m_numPoints = (N : Int) ∧
      p.m_centerCoordinate = Particle.centerOfClick targetSize click ∧
      p.m_radiansPerSec = (rand 0 : K) / (RAND_MAX : K) * M_PI ∧
      p.m_vx = (if rand 2 % 2 ≠ 0 then -((100 + rand 1 % 401 : Nat) : K)
        else ((100 + rand 1 % 401 : Nat) : K)) ∧
      p.m_vy = ((100 + rand 3 % 401 : Nat) : K) ∧
      p.m_color1 = { r := 255, g := 255, b := 255 } ∧
      p.m_color2 = { r := rand 4 % 256, g := rand 5 % 256, b := rand 6 % 256 } ∧
      p.m_A.rows = 2 ∧ p.m_A.cols = N ∧
      (∀ j, j < N →
        p.m_A.a 0 j = p.m_centerCoordinate.x +
          (20 + ((rand (8 + j) % 61 : Nat) : K)) *
            cos ((rand 7 : K) / (RAND_MAX : K) * (M_PI / 2) +
              (j : K) * (2 * M_PI / ((N : K) - 1))) ∧
        p.m_A.a 1 j = p.m_centerCoordinate.y +
          (20 + ((rand (8 + j) % 61 : Nat) : K)) *
            sin ((rand 7 : K) / (RAND_MAX : K) * (M_PI / 2) +
              (j : K) * (2 * M_PI / ((N : K) - 1)))) := by
  obtain ⟨B, hB, hBr, hBc, -, hcols⟩ :=
    Particle.generateVertices_spec cos sin rand
      (Particle.centerOfClick targetSize click : Vector2f K)
      (2 * M_PI / (((N : Int) - 1 : Int) : K)) N 0
      ((rand 7 : K) / (RAND_MAX : K) * (M_PI / 2)) 8 (Matrix.new 2 N) rfl
      (show 0 + N ≤ N by omega)
  refine ⟨{ m_ttl := TTL
            m_numPoints := (N : Int)
            m_centerCoordinate := Particle.centerOfClick targetSize click
            m_radiansPerSec := (rand 0 : K) / (RAND_MAX : K) * M_PI
            m_vx := if rand 2 % 2 ≠ 0 then -((100 + rand 1 % 401 : Nat) : K)
              else ((100 + rand 1 % 401 : Nat) : K)
            m_vy := ((100 + rand 3 % 401 : Nat) : K)
            m_cartesianPlane := Particle.cartesianPlane targetSize
            m_color1 := { r := 255, g := 255, b := 255 }
            m_color2 := { r := rand 4 % 256, g := rand 5 % 256, b := rand 6 % 256 }
            m_A := B }, ?_, ?_⟩
  · simp only [Particle.construct, bind, Except.bind, hB]
    rfl
  · refine ⟨rfl, rfl, rfl, rfl, rfl, rfl, rfl, rfl, hBr, hBc, fun j hj => ?_⟩
    have hcast : (((N : Int) - 1 : Int) : K) = (N : K) - 1 := by push_cast; ring
    have := hcols j hj
    rw [Nat.zero_add, hcast] at this
    exact this

end ConstructFacts

/-! ## Frame and shape of the transforms -/

/-- C6: on a particle whose point table has two rows, `rotate θ` and `scale s`
return with the center coordinate equal to its value before the call (the first
inner translation takes the center to the origin, the second brings it back by
the saved center), and with velocity and time-to-live unchanged. -/
theorem rotate_scale_keep_center {K : Type} [CommRing K] (cos sin : K → K)
    (p : Particle K) (θ s : K) (h : p.m_A.rows = 2) :
    (∃ r, p.translate (-p.m_centerCoordinate.x) (-p.m_centerCoordinate.y) = .ok r ∧
      r.m_centerCoordinate.x = 0 ∧ r.m_centerCoordinate.y = 0) ∧
    (∃ q, p.rotate cos sin θ = .ok q ∧
      q.m_centerCoordinate = p.m_centerCoordinate ∧
      q.m_vx = p.m_vx ∧ q.m_vy = p.m_vy ∧ q.m_ttl = p.m_ttl) ∧
    (∃ q, p.scale s = .ok q ∧
      q.m_centerCoordinate = p.m_centerCoordinate ∧
      q.m_vx = p.m_vx ∧ q.m_vy = p.m_vy ∧ q.m_ttl = p.m_ttl) := by
  refine ⟨⟨_, Particle.translate_eq p _ _ h, by simp, by simp⟩, ?_, ?_⟩
  · obtain ⟨q, hq, -, -, -, -, hcen, httl, -, -, hvx, hvy, -⟩ :=
      Particle.rotate_spec cos sin p θ h
    exact ⟨q, hq, hcen, hvx, hvy, httl⟩
  · obtain ⟨q, hq, -, -, -, -, hcen, httl, -, -, hvx, hvy, -⟩ := Particle.scale_spec p s h
    exact ⟨q, hq, hcen, hvx, hvy, httl⟩

/-- The sample triangle keeps its center `(3, 4)`, its velocity `(100, 200)` and
its time-to-live `5` through a rotation and through a scaling. -/
theorem rotate_scale_keep_center_witness :
    (sampleParticle ℤ).m_A.rows = 2 ∧
    (∃ q, (sampleParticle ℤ).rotate (fun _ => 0) (fun _ => 1) 7 = .ok q ∧
      q.m_centerCoordinate.x = 3 ∧ q.m_centerCoordinate.y = 4 ∧
      q.m_vx = 100 ∧ q.m_vy = 200 ∧ q.m_ttl = 5) ∧
    (∃ q, (sampleParticle ℤ).scale 2 = .ok q ∧
      q.m_centerCoordinate.x = 3 ∧ q.m_centerCoordinate.y = 4 ∧
      q.m_vx = 100 ∧ q.m_vy = 200 ∧ q.m_ttl = 5) := by
  obtain ⟨-, ⟨q, hq, hcen, hvx, hvy, httl⟩, ⟨q', hq', hcen', hvx', hvy', httl'⟩⟩ :=
    rotate_scale_keep_center (fun _ => 0) (fun _ => 1) (sampleParticle ℤ) 7 2 rfl
  exact ⟨rfl, ⟨q, hq, by rw [hcen]; rfl, by rw [hcen]; rfl, hvx, hvy, httl⟩,
    ⟨q', hq', by rw [hcen']; rfl, by rw [hcen']; rfl, hvx', hvy', httl'⟩⟩

/-- C7: if the point table has exactly 2 rows and `N` columns, then each of
`translate`, `rotate`, `scale` and `update`, with any arguments, returns with a
point table of exactly 2 rows and the same `N` columns. -/
theorem shape_invariant {K : Type} [CommRing K] (cos sin : K → K) (SCALE G : K)
    (p : Particle K) (N : Nat) (hr : p.m_A.getRows = 2) (hc : p.m_A.getCols = N) :
    (∀ dx dy, ∃ q, p.translate dx dy = .ok q ∧ q.m_A.getRows = 2 ∧ q.m_A.getCols = N) ∧
    (∀ θ, ∃ q, p.rotate cos sin θ = .ok q ∧ q.m_A.getRows = 2 ∧ q.m_A.getCols = N) ∧
    (∀ s, ∃ q, p.scale s = .ok q ∧ q.m_A.getRows = 2 ∧ q.m_A.getCols = N) ∧
    (∀ dt, ∃ q, p.update cos sin SCALE G dt = .ok q ∧
      q.m_A.getRows = 2 ∧ q.m_A.getCols = N) := by
  simp only [Matrix.getRows, Matrix.getCols] at hr hc ⊢
  refine ⟨fun dx dy => ⟨_, Particle.translate_eq p dx dy hr, rfl, hc⟩, ?_, ?_, ?_⟩
  · intro θ
    obtain ⟨q, hq, hr', hc', -⟩ := Particle.rotate_spec cos sin p θ hr
    exact ⟨q, hq, hr', hc'.trans hc⟩
  · intro s
    obtain ⟨q, hq, hr', hc', -⟩ := Particle.scale_spec p s hr
    exact ⟨q, hq, hr', hc'.trans hc⟩
  · intro dt
    obtain ⟨q, hq, hr', hc', -⟩ := Particle.update_spec cos sin SCALE G p dt hr
    exact ⟨q, hq, hr', hc'.trans hc⟩

/-- The sample triangle (2 × 3) stays 2 × 3 under all four operations. -/
theorem shape_invariant_witness :
    (sampleParticle ℤ).m_A.getRows = 2 ∧ (sampleParticle ℤ).m_A.getCols = 3 ∧
    (∀ dx dy, ∃ q, (sampleParticle ℤ).translate dx dy = .ok q ∧
      q.m_A.getRows = 2 ∧ q.m_A.getCols = 3) ∧
    (∀ θ, ∃ q, (sampleParticle ℤ).rotate (fun _ => 0) (fun _ => 1) θ = .ok q ∧
      q.m_A.getRows = 2 ∧ q.m_A.getCols = 3) ∧
    (∀ s, ∃ q, (sampleParticle ℤ).scale s = .ok q ∧ q.m_A.getRows = 2 ∧ q.m_A.getCols = 3) ∧
    (∀ dt, ∃ q, (sampleParticle ℤ).update (fun _ => 0) (fun _ => 1) 2 1000 dt = .ok q ∧
      q.m_A.getRows = 2 ∧ q.m_A.getCols = 3) :=
  ⟨rfl, rfl, shape_invariant (fun _ => 0) (fun _ => 1) 2 1000 (sampleParticle ℤ) 3 rfl rfl⟩

/-! ## No failure inside `update` -/

/-- C8: on a particle whose point table is 2 × N with `N ≥ 1`, `update dt`
returns a particle, so no operator inside it fails.  The five additions it
performs (two in `rotate`, two in `scale`, one in `translate`) are each between a
2 × N translation matrix and a 2 × N point table, and its two multiplications are
each a 2 × 2 matrix times a 2 × N point table; `q1` and `q2` are the states after
`rotate` and after `scale`. -/
theorem update_never_fails {K : Type} [CommRing K] (cos sin : K → K) (SCALE G : K)
    (p : Particle K) (dt : K) (N : Nat)
    (hr : p.m_A.getRows = 2) (hc : p.m_A.getCols = N) (_hN : 1 ≤ N) :
    (∀ dx dy : K, (TranslationMatrix dx dy N).hasShape 2 N) ∧
    (RotationMatrix cos sin (dt * p.m_radiansPerSec)).hasShape 2 2 ∧
    (ScalingMatrix SCALE).hasShape 2 2 ∧
    ∃ (A1 A2 A4 A5 : Matrix K) (q1 q2 q : Particle K),
      Matrix.add (TranslationMatrix (-p.m_centerCoordinate.x) (-p.m_centerCoordinate.y) N)
        p.m_A = .ok A1 ∧ A1.hasShape 2 N ∧
      Matrix.mul (RotationMatrix cos sin (dt * p.m_radiansPerSec)) A1 = .ok A2 ∧
        A2.hasShape 2 N ∧
      Matrix.add (TranslationMatrix p.m_centerCoordinate.x p.m_centerCoordinate.y N) A2 =
        .ok q1.m_A ∧ q1.m_A.hasShape 2 N ∧
      Particle.rotate cos sin { p with m_ttl := p.m_ttl - dt } (dt * p.m_radiansPerSec) =
        .ok q1 ∧
      Matrix.add (TranslationMatrix (-q1.m_centerCoordinate.x) (-q1.m_centerCoordinate.y) N)
        q1.m_A = .ok A4 ∧ A4.hasShape 2 N ∧
      Matrix.mul (ScalingMatrix SCALE) A4 = .ok A5 ∧ A5.hasShape 2 N ∧
      Matrix.add (TranslationMatrix q1.m_centerCoordinate.x q1.m_centerCoordinate.y N) A5 =
        .ok q2.m_A ∧ q2.m_A.hasShape 2 N ∧
      q1.scale SCALE = .ok q2 ∧
      Matrix.add (TranslationMatrix (q2.m_vx * dt) ((q2.m_vy - G * dt) * dt) N) q2.m_A =
        .ok q.m_A ∧ q.m_A.hasShape 2 N ∧
      p.update cos sin SCALE G dt = .ok q := by
  refine ⟨fun _ _ => ⟨rfl, rfl⟩, ⟨rfl, rfl⟩, ⟨rfl, rfl⟩, ?_⟩
  obtain ⟨A1, A2, q1, h1, s1, h2, s2, h3, s3, hrot⟩ :=
    Particle.rotate_steps cos sin { p with m_ttl := p.m_ttl - dt } (dt * p.m_radiansPerSec) N
      hr hc
  obtain ⟨A4, A5, q2, h4, s4, h5, s5, h6, s6, hsc⟩ :=
    Particle.scale_steps q1 SCALE N s3.1 s3.2
  obtain ⟨q, h7, s7, htr⟩ :=
    Particle.translate_steps { q2 with m_vy := q2.m_vy - G * dt } (q2.m_vx * dt)
      ((q2.m_vy - G * dt) * dt) N s6.1 s6.2
  refine ⟨A1, A2, A4, A5, q1, q2, q, h1, s1, h2, s2, h3, s3, hrot, h4, s4, h5, s5, h6, s6, hsc,
    h7, s7, ?_⟩
  simp only [Particle.update, bind, Except.bind, hrot, hsc]
  exact htr

/-- The sample triangle (2 × 3): one frame goes through its seven matrix
operations without a failure. -/
theorem update_never_fails_witness :
    (sampleParticle ℤ).m_A.getRows = 2 ∧ (sampleParticle ℤ).m_A.getCols = 3 ∧ 1 ≤ 3 ∧
    ∃ q, (sampleParticle ℤ).update (fun _ => 0) (fun _ => 1) 2 1000 1 = .ok q ∧
      q.m_A.hasShape 2 3 := by
  obtain ⟨-, -, -, _, _, _, _, _, _, q, -, -, -, -, -, -, -, -, -, -, -, -, -, -, -, hs, hq⟩ :=
    update_never_fails (fun _ => 0) (fun _ => 1) 2 1000 (sampleParticle ℤ) 1 3 rfl rfl
      (by decide)
  exact ⟨rfl, rfl, by decide, q, hq, hs⟩

/-! ## The center-screen click -/

/-- The cast and the division of `Engine::run` on a size below `2 ^ 31`, where
the cast does not wrap: the click coordinate is the size halved, rounded down. -/
theorem Engine.centerClick_small (W H : Nat) (hW : W < 2 ^ 31) (hH : H < 2 ^ 31) :
    Engine.centerClick ⟨W, H⟩ = ⟨((W / 2 : Nat) : Int), ((H / 2 : Nat) : Int)⟩ := by
  have hW' : W % 2 ^ 32 = W := Nat.mod_eq_of_lt (by omega)
  have hH' : H % 2 ^ 32 = H := Nat.mod_eq_of_lt (by omega)
  simp only [Engine.centerClick, unsignedToInt, hW', hH', hW, hH, if_true]
  rw [Int.tdiv_eq_ediv (Int.natCast_nonneg W) (by decide),
    Int.tdiv_eq_ediv (Int.natCast_nonneg H) (by decide)]
  norm_cast

/-- The center the model gives to a particle built from a click on a surface
without a zero side: the pixel offset from the middle of the surface, with the
y axis flipped. -/
theorem Particle.centerOfClick_eq (K : Type) [Field K] [CharZero K] (W H : Nat)
    (click : Vector2i) (hW : 0 < W) (hH : 0 < H) :
    (Particle.centerOfClick ⟨W, H⟩ click : Vector2f K).x = (click.x : K) - (W : K) / 2 ∧
    (Particle.centerOfClick ⟨W, H⟩ click : Vector2f K).y = (H : K) / 2 - (click.y : K) := by
  have hW0 : (W : K) ≠ 0 := by
    have : W ≠ 0 := by omega
    exact_mod_cast this
  have hH0 : (H : K) ≠ 0 := by
    have : H ≠ 0 := by omega
    exact_mod_cast this
  simp only [Particle.centerOfClick, mapPixelToCoords, Particle.cartesianPlane]
  constructor
  · field_simp
    ring
  · field_simp
    ring

/-- C9: the unit test of Particle.cpp 186-196 expects the center `(0, 0)` for the
particle `Engine::run` builds.  On every surface with an odd width or an odd
height (sides positive and below `2 ^ 24`, where the conversion of the size to
`float` is exact) that particle is built, its center is not `(0, 0)`, and the
test takes its `Failed` branch. -/
theorem unit_test_origin_fails_on_odd_size (RAND_MAX : Nat) (TTL : ℝ) (rand : Nat → Nat)
    (targetSize : Vector2u)
    (hW : 0 < targetSize.x) (hH : 0 < targetSize.y)
    (hWs : targetSize.x < 2 ^ 24) (hHs : targetSize.y < 2 ^ 24)
    (hodd : targetSize.x % 2 = 1 ∨ targetSize.y % 2 = 1) :
    ∃ p, Engine.unitTestParticle Real.cos Real.sin Real.pi RAND_MAX TTL rand targetSize =
        .ok p ∧
      p.originTestFails := by
  obtain ⟨W, H⟩ := targetSize
  simp only at hW hH hWs hHs hodd
  obtain ⟨p, hp, -, -, hcen, -⟩ :=
    Particle.construct_spec Real.cos Real.sin Real.pi RAND_MAX TTL rand ⟨W, H⟩ 4
      (Engine.centerClick ⟨W, H⟩)
  obtain ⟨hx, hy⟩ :=
    Particle.centerOfClick_eq ℝ W H ⟨((W / 2 : Nat) : Int), ((H / 2 : Nat) : Int)⟩ hW hH
  simp only at hx hy
  refine ⟨p, hp, ?_⟩
  rw [Particle.originTestFails, hcen,
    Engine.centerClick_small W H (by omega) (by omega), hx, hy]
  rcases hodd with h | h
  · left
    intro h0
    have h1 : (2 : ℝ) * (((W / 2 : Nat) : Int) : ℝ) = (W : ℝ) := by linarith
    have h2 : 2 * (W / 2) = W := by exact_mod_cast h1
    omega
  · right
    intro h0
    have h1 : (2 : ℝ) * (((H / 2 : Nat) : Int) : ℝ) = (H : ℝ) := by linarith
    have h2 : 2 * (H / 2) = H := by exact_mod_cast h1
    omega

/-- A 3 × 2 surface: the click is the pixel `(1, 1)` and the origin check
fails. -/
theorem unit_test_origin_fails_on_odd_size_witness :
    ((0 < 3 ∧ 0 < 2) ∧ (3 < 2 ^ 24 ∧ 2 < 2 ^ 24) ∧ (3 % 2 = 1 ∨ 2 % 2 = 1)) ∧
    Engine.centerClick ⟨3, 2⟩ = ⟨1, 1⟩ ∧
    ∃ p, Engine.unitTestParticle Real.cos Real.sin Real.pi 32767 5 sampleRand ⟨3, 2⟩ =
        .ok p ∧
      p.originTestFails :=
  ⟨⟨⟨by decide, by decide⟩, ⟨by decide, by decide⟩, Or.inl (by decide)⟩, by decide,
    unit_test_origin_fails_on_odd_size 32767 5 sampleRand ⟨3, 2⟩ (by decide) (by decide)
      (by decide) (by decide) (Or.inl (by decide))⟩

/-- An 800 × 600 surface: the click is the pixel `(400, 300)`, the center is
`(0, 0)` and the origin check passes. -/
theorem unit_test_origin_passes_on_800_600 :
    Engine.centerClick ⟨800, 600⟩ = ⟨400, 300⟩ ∧
    ∃ p, Engine.unitTestParticle Real.cos Real.sin Real.pi 32767 5 sampleRand ⟨800, 600⟩ =
        .ok p ∧
      ¬ p.originTestFails := by
  have hc : Engine.centerClick ⟨800, 600⟩ = ⟨400, 300⟩ := by decide
  obtain ⟨p, hp, -, -, hcen, -⟩ :=
    Particle.construct_spec Real.cos Real.sin Real.pi 32767 5 sampleRand ⟨800, 600⟩ 4
      (Engine.centerClick ⟨800, 600⟩)
  refine ⟨hc, p, hp, ?_⟩
  rw [Particle.originTestFails, hcen, hc]
  simp only [Particle.centerOfClick, mapPixelToCoords, Particle.cartesianPlane]
  norm_num

/-! ## The matrix operators and the three transform matrices -/

/-- C11: `operator+` fails with the dimension-mismatch condition exactly when the
row counts or the column counts differ, and otherwise returns the element-wise
sum with the same dimensions; `operator*` fails with the dimension-mismatch
condition exactly when `left.cols ≠ right.rows`, and otherwise returns the
`left.rows × right.cols` matrix whose cell `(i, j)` is the sum over `k` of
`left(i, k) * right(k, j)`. -/
theorem operators_fail_iff_mismatch {K : Type} [CommRing K] (x y : Matrix K) :
    (Matrix.add x y = .error .dimensionMismatch ↔
      (x.getRows ≠ y.getRows ∨ x.getCols ≠ y.getCols)) ∧
    (x.getRows = y.getRows → x.getCols = y.getCols →
      ∃ z, Matrix.add x y = .ok z ∧ z.getRows = x.getRows ∧ z.getCols = x.getCols ∧
        ∀ i j, i < x.getRows → j < x.getCols → z.get i j = .ok (x.a i j + y.a i j)) ∧
    (Matrix.mul x y = .error .dimensionMismatch ↔ x.getCols ≠ y.getRows) ∧
    (x.getCols = y.getRows →
      ∃ z, Matrix.mul x y = .ok z ∧ z.getRows = x.getRows ∧ z.getCols = y.getCols ∧
        ∀ i j, i < x.getRows → j < y.getCols →
          z.get i j = .ok (∑ k in Finset.range x.getCols, x.a i k * y.a k j)) := by
  simp only [Matrix.getRows, Matrix.getCols]
  refine ⟨?_, ?_, ?_, ?_⟩
  · unfold Matrix.add
    split
    · rename_i h
      exact ⟨fun _ => h, fun _ => rfl⟩
    · rename_i h
      exact ⟨fun hc => (by cases hc), fun hc => absurd hc h⟩
  · intro hr hc
    refine ⟨_, Matrix.add_ok x y hr hc, rfl, rfl, fun i j hi hj => ?_⟩
    exact Matrix.get_ok _ hi hj
  · unfold Matrix.mul
    split
    · rename_i h
      exact ⟨fun _ => h, fun _ => rfl⟩
    · rename_i h
      exact ⟨fun hc => (by cases hc), fun hc => absurd hc h⟩
  · intro h
    refine ⟨_, Matrix.mul_ok x y h, rfl, rfl, fun i j hi hj => ?_⟩
    simp only [Matrix.get, hi, hj, and_self, if_true, dotSum_eq_sum]

/-- A 2 × 2 scaling matrix against the 2 × 3 sample table: the sum is refused,
the product is the 2 × 3 table of dot products; two 2 × 2 matrices add. -/
theorem operators_fail_iff_mismatch_witness :
    Matrix.add (ScalingMatrix (2 : ℤ)) (sampleParticle ℤ).m_A = .error .dimensionMismatch ∧
    (∃ z, Matrix.add (ScalingMatrix (2 : ℤ)) (ScalingMatrix 3) = .ok z ∧
      z.getRows = 2 ∧ z.getCols = 2 ∧ z.get 0 0 = .ok 5 ∧ z.get 0 1 = .ok 0) ∧
    Matrix.mul (sampleParticle ℤ).m_A (ScalingMatrix (2 : ℤ)) = .error .dimensionMismatch ∧
    (∃ z, Matrix.mul (ScalingMatrix (2 : ℤ)) (sampleParticle ℤ).m_A = .ok z ∧
      z.getRows = 2 ∧ z.getCols = 3 ∧ z.get 0 0 = .ok 46 ∧ z.get 1 1 = .ok 68) := by
  obtain ⟨hadd, -, -, hprod⟩ :=
    operators_fail_iff_mismatch (ScalingMatrix (2 : ℤ)) (sampleParticle ℤ).m_A
  obtain ⟨-, hsum, -, -⟩ := operators_fail_iff_mismatch (ScalingMatrix (2 : ℤ)) (ScalingMatrix 3)
  obtain ⟨-, -, hmul, -⟩ :=
    operators_fail_iff_mismatch (sampleParticle ℤ).m_A (ScalingMatrix (2 : ℤ))
  refine ⟨hadd.2 (Or.inr (by decide)), ?_, hmul.2 (by decide), ?_⟩
  · obtain ⟨z, hz, hr, hc, hcell⟩ := hsum rfl rfl
    refine ⟨z, hz, hr, hc, ?_, ?_⟩
    · rw [hcell 0 0 (by decide) (by decide)]
      exact congrArg Except.ok (by decide)
    · rw [hcell 0 1 (by decide) (by decide)]
      exact congrArg Except.ok (by decide)
  · obtain ⟨z, hz, hr, hc, hcell⟩ := hprod rfl
    refine ⟨z, hz, hr, hc, ?_, ?_⟩
    · rw [hcell 0 0 (by decide) (by decide)]
      exact congrArg Except.ok (by decide)
    · rw [hcell 1 1 (by decide) (by decide)]
      exact congrArg Except.ok (by decide)

/-- C12: for every angle `θ`, `RotationMatrix θ` has 2 rows and 2 columns and
cells `(0,0) = cos θ`, `(0,1) = -sin θ`, `(1,0) = sin θ`, `(1,1) = cos θ`. -/
theorem rotation_matrix_entries (θ : ℝ) :
    (RotationMatrix Real.cos Real.sin θ).getRows = 2 ∧
    (RotationMatrix Real.cos Real.sin θ).getCols = 2 ∧
    (RotationMatrix Real.cos Real.sin θ).get 0 0 = .ok (Real.cos θ) ∧
    (RotationMatrix Real.cos Real.sin θ).get 0 1 = .ok (-Real.sin θ) ∧
    (RotationMatrix Real.cos Real.sin θ).get 1 0 = .ok (Real.sin θ) ∧
    (RotationMatrix Real.cos Real.sin θ).get 1 1 = .ok (Real.cos θ) :=
  ⟨rfl, rfl, rfl, rfl, rfl, rfl⟩

/-- C13: for every `dx`, `dy` and column count `n`, `TranslationMatrix dx dy n`
has 2 rows and `n` columns, and cell `(0, j)` is `dx` and cell `(1, j)` is `dy`
for every `j < n`. -/
theorem translation_matrix_entries {K : Type} [CommRing K] (dx dy : K) (n : Nat) :
    (TranslationMatrix dx dy n).getRows = 2 ∧
    (TranslationMatrix dx dy n).getCols = n ∧
    ∀ j, j < n →
      (TranslationMatrix dx dy n).get 0 j = .ok dx ∧
      (TranslationMatrix dx dy n).get 1 j = .ok dy := by
  refine ⟨rfl, rfl, fun j hj => ⟨?_, ?_⟩⟩
  · exact Matrix.get_ok _ (show 0 < 2 by decide) hj
  · exact Matrix.get_ok _ (show 1 < 2 by decide) hj

/-- The unit test of Particle.cpp 167-183: `TranslationMatrix(5, -5, 3)` is 2 × 3
and each of its three columns is `(5, -5)`. -/
theorem translation_matrix_entries_witness :
    (0 < 3 ∧ 1 < 3 ∧ 2 < 3) ∧
    (TranslationMatrix (5 : ℤ) (-5) 3).getRows = 2 ∧
    (TranslationMatrix (5 : ℤ) (-5) 3).getCols = 3 ∧
    ((TranslationMatrix (5 : ℤ) (-5) 3).get 0 0 = .ok 5 ∧
      (TranslationMatrix (5 : ℤ) (-5) 3).get 1 0 = .ok (-5)) ∧
    ((TranslationMatrix (5 : ℤ) (-5) 3).get 0 1 = .ok 5 ∧
      (TranslationMatrix (5 : ℤ) (-5) 3).get 1 1 = .ok (-5)) ∧
    ((TranslationMatrix (5 : ℤ) (-5) 3).get 0 2 = .ok 5 ∧
      (TranslationMatrix (5 : ℤ) (-5) 3).get 1 2 = .ok (-5)) :=
  ⟨⟨by decide, by decide, by decide⟩,
    (translation_matrix_entries (5 : ℤ) (-5) 3).1,
    (translation_matrix_entries (5 : ℤ) (-5) 3).2.1,
    (translation_matrix_entries (5 : ℤ) (-5) 3).2.2 0 (by decide),
    (translation_matrix_entries (5 : ℤ) (-5) 3).2.2 1 (by decide),
    (translation_matrix_entries (5 : ℤ) (-5) 3).2.2 2 (by decide)⟩

/-- C14: for every factor `s`, zero included, `ScalingMatrix s` has 2 rows and 2
columns, both diagonal cells equal `s` and both off-diagonal cells equal `0`. -/
theorem scaling_matrix_entries {K : Type} [CommRing K] (s : K) :
    ((ScalingMatrix s).getRows = 2 ∧ (ScalingMatrix s).getCols = 2 ∧
      (ScalingMatrix s).get 0 0 = .ok s ∧ (ScalingMatrix s).get 0 1 = .ok 0 ∧
      (ScalingMatrix s).get 1 0 = .ok 0 ∧ (ScalingMatrix s).get 1 1 = .ok s) ∧
    ((ScalingMatrix (0 : K)).get 0 0 = .ok 0 ∧ (ScalingMatrix (0 : K)).get 1 1 = .ok 0) :=
  ⟨⟨rfl, rfl, rfl, rfl, rfl, rfl⟩, rfl, rfl⟩

/-! ## What `update` leaves alone -/

/-- C18: on a particle whose point table has two rows, `update dt` returns with
the angular velocity, the horizontal velocity, the vertex count and both colors
(and the Cartesian view) as they were; the fields it writes are time-to-live,
`vy`, the center coordinate and the point table. -/
theorem update_frame {K : Type} [CommRing K] (cos sin : K → K) (SCALE G : K)
    (p : Particle K) (dt : K) (h : p.m_A.rows = 2) :
    ∃ q, p.update cos sin SCALE G dt = .ok q ∧
      q.m_radiansPerSec = p.m_radiansPerSec ∧ q.m_vx = p.m_vx ∧
      q.m_numPoints = p.m_numPoints ∧ q.m_A.getCols = p.m_A.getCols ∧
      q.m_color1 = p.m_color1 ∧ q.m_color2 = p.m_color2 ∧
      q.m_cartesianPlane = p.m_cartesianPlane := by
  obtain ⟨q, hq, -, hc, -, -, -, -, -, -, hn, hw, hvx, hpl, hc1, hc2⟩ :=
    Particle.update_spec cos sin SCALE G p dt h
  exact ⟨q, hq, hw, hvx, hn, hc, hc1, hc2, hpl⟩

/-- One frame of the sample triangle: angular velocity `1`, `vx = 100`, three
vertices and both colors are as before, while time-to-live and `vy` move. -/
theorem update_frame_witness :
    (sampleParticle ℤ).m_A.rows = 2 ∧
    ∃ q, (sampleParticle ℤ).update (fun _ => 0) (fun _ => 1) 2 1000 1 = .ok q ∧
      q.m_radiansPerSec = 1 ∧ q.m_vx = 100 ∧ q.m_numPoints = 3 ∧ q.m_A.getCols = 3 ∧
      q.m_color1 = { r := 255, g := 255, b := 255 } ∧
      q.m_color2 = { r := 10, g := 20, b := 30 } ∧
      q.m_cartesianPlane = (sampleParticle ℤ).m_cartesianPlane :=
  ⟨rfl, update_frame (fun _ => 0) (fun _ => 1) 2 1000 (sampleParticle ℤ) 1 rfl⟩

/-! ## The random parameters of a new particle -/

/-- C16, as amended: when the first draw is a value the generator can return
(`rand 0 ≤ RAND_MAX`, with `RAND_MAX > 0`), the angular velocity
`rand / RAND_MAX * π` of the constructed particle is `≥ 0` and below `3.141593`,
a bound that leaves room for `π` itself and for its rounding. -/
theorem angular_velocity_range (RAND_MAX : Nat) (TTL : ℝ) (rand : Nat → Nat)
    (targetSize : Vector2u) (N : Nat) (click : Vector2i)
    (hmax : 0 < RAND_MAX) (hdraw : rand 0 ≤ RAND_MAX) :
    ∃ p, Particle.construct Real.cos Real.sin Real.pi RAND_MAX TTL rand targetSize N click =
        .ok p ∧
      0 ≤ p.m_radiansPerSec ∧ p.m_radiansPerSec < 3.141593 := by
  obtain ⟨p, hp, -, -, -, hw, -⟩ :=
    Particle.construct_spec Real.cos Real.sin Real.pi RAND_MAX TTL rand targetSize N click
  have hM : (0 : ℝ) < (RAND_MAX : ℝ) := by exact_mod_cast hmax
  have hd : ((rand 0 : Nat) : ℝ) ≤ (RAND_MAX : ℝ) := by exact_mod_cast hdraw
  have hpi := Real.pi_pos
  have hfrac0 : (0 : ℝ) ≤ (rand 0 : ℝ) / (RAND_MAX : ℝ) :=
    div_nonneg (Nat.cast_nonneg _) hM.le
  have hfrac1 : (rand 0 : ℝ) / (RAND_MAX : ℝ) ≤ 1 := (div_le_one hM).2 hd
  refine ⟨p, hp, ?_, ?_⟩
  · rw [hw]
    exact mul_nonneg hfrac0 hpi.le
  · rw [hw]
    have hle : (rand 0 : ℝ) / (RAND_MAX : ℝ) * Real.pi ≤ Real.pi := by nlinarith
    exact lt_of_le_of_lt hle Real.pi_lt_d6

/-- With `RAND_MAX = 32767` and a first draw of `1000`. -/
theorem angular_velocity_range_witness :
    (0 < 32767 ∧ sampleRand 0 ≤ 32767) ∧
    ∃ p, Particle.construct Real.cos Real.sin Real.pi 32767 5 sampleRand ⟨800, 600⟩ 4
        ⟨400, 300⟩ = .ok p ∧
      0 ≤ p.m_radiansPerSec ∧ p.m_radiansPerSec < 3.141593 :=
  ⟨⟨by decide, by decide⟩,
    angular_velocity_range 32767 5 sampleRand ⟨800, 600⟩ 4 ⟨400, 300⟩ (by decide) (by decide)⟩

/-- C16 as stated fails when the first draw is `RAND_MAX` itself (here 32767):
the quotient `rand / RAND_MAX` is then `1` and the angular velocity is not
strictly less than `π`. -/
theorem angular_velocity_not_below_pi :
    ∃ p, Particle.construct Real.cos Real.sin Real.pi 32767 5 (fun _ => 32767) ⟨800, 600⟩ 4
        ⟨400, 300⟩ = .ok p ∧
      ¬ p.m_radiansPerSec < Real.pi := by
  obtain ⟨p, hp, -, -, -, hw, -⟩ :=
    Particle.construct_spec Real.cos Real.sin Real.pi 32767 5 (fun _ => 32767) ⟨800, 600⟩ 4
      ⟨400, 300⟩
  have hw' : p.m_radiansPerSec = Real.pi := by
    rw [hw]
    norm_num
  exact ⟨p, hp, by rw [hw']; exact lt_irrefl _⟩

/-- C17: whatever the draws, the constructed particle has `100 ≤ |vx| ≤ 500`
with `vx` negative exactly when the draw after the magnitude's is odd, and
`100 ≤ vy ≤ 500` with `vy` positive; the magnitudes are `100 + draw mod 401`. -/
theorem constructor_velocity {K : Type} [LinearOrderedField K] (cos sin : K → K) (M_PI : K)
    (RAND_MAX : Nat) (TTL : K) (rand : Nat → Nat) (targetSize : Vector2u) (N : Nat)
    (click : Vector2i) :
    ∃ p, Particle.construct cos sin M_PI RAND_MAX TTL rand targetSize N click = .ok p ∧
      |p.m_vx| = ((100 + rand 1 % 401 : Nat) : K) ∧
      100 ≤ |p.m_vx| ∧ |p.m_vx| ≤ 500 ∧
      (p.m_vx < 0 ↔ rand 2 % 2 = 1) ∧
      p.m_vy = ((100 + rand 3 % 401 : Nat) : K) ∧
      100 ≤ p.m_vy ∧ p.m_vy ≤ 500 ∧ 0 < p.m_vy := by
  obtain ⟨p, hp, -, -, -, -, hvx, hvy, -⟩ :=
    Particle.construct_spec cos sin M_PI RAND_MAX TTL rand targetSize N click
  have hx1 : (100 : K) ≤ ((100 + rand 1 % 401 : Nat) : K) := by
    have : 100 ≤ 100 + rand 1 % 401 := Nat.le_add_right _ _
    exact_mod_cast this
  have hx2 : ((100 + rand 1 % 401 : Nat) : K) ≤ 500 := by
    have : 100 + rand 1 % 401 ≤ 500 := by
      have := Nat.mod_lt (rand 1) (show 0 < 401 by decide)
      omega
    exact_mod_cast this
  have hy1 : (100 : K) ≤ ((100 + rand 3 % 401 : Nat) : K) := by
    have : 100 ≤ 100 + rand 3 % 401 := Nat.le_add_right _ _
    exact_mod_cast this
  have hy2 : ((100 + rand 3 % 401 : Nat) : K) ≤ 500 := by
    have : 100 + rand 3 % 401 ≤ 500 := by
      have := Nat.mod_lt (rand 3) (show 0 < 401 by decide)
      omega
    exact_mod_cast this
  have hpos : (0 : K) < ((100 + rand 1 % 401 : Nat) : K) := lt_of_lt_of_le (by norm_num) hx1
  have habs : |p.m_vx| = ((100 + rand 1 % 401 : Nat) : K) := by
    rw [hvx]
    split
    · rw [abs_neg, abs_of_pos hpos]
    · rw [abs_of_pos hpos]
  have hsign : p.m_vx < 0 ↔ rand 2 % 2 = 1 := by
    rw [hvx]
    by_cases hodd : rand 2 % 2 = 1
    · have hne : rand 2 % 2 ≠ 0 := by omega
      rw [if_pos hne]
      exact ⟨fun _ => hodd, fun _ => neg_neg_of_pos hpos⟩
    · have he : ¬ rand 2 % 2 ≠ 0 := by omega
      rw [if_neg he]
      exact ⟨fun h => absurd h (not_lt.2 hpos.le), fun h => absurd h hodd⟩
  refine ⟨p, hp, habs, ?_, ?_, hsign, hvy, ?_, ?_, ?_⟩
  · rw [habs]; exact hx1
  · rw [habs]; exact hx2
  · rw [hvy]; exact hy1
  · rw [hvy]; exact hy2
  · rw [hvy]; exact lt_of_lt_of_le (by norm_num) hy1

end Particles
